import Mathlib

/-!
# Verification of the PC parts price tracker (`src/App.tsx`, later revision)

A shallow embedding of the data model and the state-update / derivation
functions of the parts tracker, together with theorems settling the claims
about it.

Modelling conventions:
* JavaScript numbers are modelled exactly, as rationals extended with the
  three non-finite values `NaN`, `Infinity` and `-Infinity` (`JsNum`);
  `parseFloat`, `Math.min`, `+`, `-` and `toFixed(2)` are given their
  ECMAScript meaning on these values (`toFixed` is modelled in its
  `|x| < 10^21` branch, the one exercised by the program).
* `new Date().toLocaleDateString()` is threaded through as an explicit
  `today : String` parameter; `Date.now().toString()` identifiers are
  explicit `String` parameters.
* React state (`parts`, `savedBuilds`, `buildName`, dialog flags) becomes
  explicit state passing; `localStorage.setItem('savedBuilds', JSON.stringify l)`
  is modelled as storing the list `l` itself (`storage : Option (List SavedBuild)`),
  since serialization is injective on this data.
* `Array.prototype.sort` is modelled as a top-down merge sort (the result is
  implementation-defined for inconsistent comparators; a merge sort is the
  concrete algorithm chosen by the model).
* `String.prototype.replace('$', '')` removes the first occurrence of `'$'`,
  `String.prototype.trim` strips ASCII whitespace from both ends, and
  `localeCompare` is modelled by code-point lexicographic comparison.
-/

/-- A JavaScript number: a finite rational or one of the non-finite values. -/
inductive JsNum where
  | num (q : ℚ)
  | nan
  | posInf
  | negInf
deriving DecidableEq

/-- Digit character for a digit value (only used for `d < 10`). -/
def digitChar (d : Nat) : Char :=
  match d with
  | 0 => '0' | 1 => '1' | 2 => '2' | 3 => '3' | 4 => '4'
  | 5 => '5' | 6 => '6' | 7 => '7' | 8 => '8' | _ => '9'

/-- Numeric value of a digit character. -/
def charVal (c : Char) : Nat := c.toNat - 48

/-- Decimal digit characters of a natural number, most significant first. -/
def natDecChars (m : Nat) : List Char :=
  if m = 0 then ['0'] else (Nat.digits 10 m).reverse.map digitChar

/-- Whitespace skipped by `parseFloat`. -/
def isJsWs (c : Char) : Bool := c = ' ' || c = '\t' || c = '\n' || c = '\r'

/-- Skip leading whitespace. -/
def skipWs : List Char → List Char
  | [] => []
  | c :: rest => if isJsWs c then skipWs rest else c :: rest

/-- Optional sign; returns (isNegative, rest). -/
def parseSign : List Char → Bool × List Char
  | '-' :: rest => (true, rest)
  | '+' :: rest => (false, rest)
  | rest => (false, rest)

/-- Longest digit-character prefix and the remainder. -/
def takeDigits : List Char → List Char × List Char
  | [] => ([], [])
  | c :: rest =>
    if c.isDigit then
      let p := takeDigits rest
      (c :: p.1, p.2)
    else ([], c :: rest)

/-- Value of a big-endian digit-character list. -/
def digitsVal (cs : List Char) : Nat := cs.foldl (fun a c => a * 10 + charVal c) 0

/-- Recognize the literal `Infinity` as a prefix. -/
def stripInfinity : List Char → Option (List Char)
  | 'I' :: 'n' :: 'f' :: 'i' :: 'n' :: 'i' :: 't' :: 'y' :: rest => some rest
  | _ => none

/-- Exponent factor `10^e` as a rational. -/
def expFactor (e : Int) : ℚ :=
  if 0 ≤ e then (10 : ℚ) ^ e.toNat else 1 / (10 : ℚ) ^ (-e).toNat

/-- Optional exponent part (`e`/`E`, sign, digits); 0 when absent or malformed. -/
def parseExp : List Char → Int
  | 'e' :: rest =>
    let s := parseSign rest
    let p := takeDigits s.2
    if p.1 = [] then 0
    else if s.1 then -(digitsVal p.1 : Int) else (digitsVal p.1 : Int)
  | 'E' :: rest =>
    let s := parseSign rest
    let p := takeDigits s.2
    if p.1 = [] then 0
    else if s.1 then -(digitsVal p.1 : Int) else (digitsVal p.1 : Int)
  | _ => 0

/-- Optional fraction part: digits after a leading `'.'`. -/
def parseFrac : List Char → List Char × List Char
  | '.' :: rest => takeDigits rest
  | l => ([], l)

/-- Magnitude of the decimal literal at the head of `cs` (integer digits,
optional fraction, optional exponent). -/
def parsedMag (cs : List Char) : ℚ :=
  ((digitsVal (takeDigits cs).1 : ℚ) +
      (digitsVal (parseFrac (takeDigits cs).2).1 : ℚ) /
        (10 : ℚ) ^ (parseFrac (takeDigits cs).2).1.length) *
    expFactor (parseExp (parseFrac (takeDigits cs).2).2)

/-- `parseFloat` after whitespace and sign have been consumed. -/
def parseAfterSign (neg : Bool) (cs : List Char) : JsNum :=
  match stripInfinity cs with
  | some _ => if neg then JsNum.negInf else JsNum.posInf
  | none =>
    if (takeDigits cs).1 = [] ∧ (parseFrac (takeDigits cs).2).1 = [] then
      JsNum.nan
    else JsNum.num (if neg then -parsedMag cs else parsedMag cs)

/-- ECMAScript `parseFloat` on a character list: skip whitespace, optional
sign, then the longest decimal-literal prefix (`Infinity`, or digits with an
optional fraction and exponent); `NaN` when no literal is present. -/
def parseFloatChars (cs : List Char) : JsNum :=
  parseAfterSign (parseSign (skipWs cs)).1 (parseSign (skipWs cs)).2

/-- `parseFloat` on strings. -/
def jsParseFloat (s : String) : JsNum := parseFloatChars s.data

/-- `String.prototype.trim`: remove leading and trailing whitespace. -/
def jsTrim (s : String) : String :=
  String.mk (((s.data.dropWhile fun c => c.isWhitespace).reverse.dropWhile
    fun c => c.isWhitespace).reverse)

/-- `s.replace('$', '')`: remove the first occurrence of `'$'`. -/
def replaceFirstDollar : List Char → List Char
  | [] => []
  | '$' :: rest => rest
  | c :: rest => c :: replaceFirstDollar rest

/-- `String.prototype.replace('$', '')` on strings. -/
def jsReplaceDollar (s : String) : String := String.mk (replaceFirstDollar s.data)

/-- The integer `n` with `n/100` closest to `|q|` (ties to the larger `n`),
as in `Number.prototype.toFixed(2)`. -/
def fixed2Nat (q : ℚ) : Nat := (Int.floor (|q| * 100 + 1 / 2)).toNat

/-- The value printed by `toFixed(2)`, read back as a rational. -/
def round2 (q : ℚ) : ℚ :=
  if q < 0 then -((fixed2Nat q : ℚ) / 100) else (fixed2Nat q : ℚ) / 100

/-- `Number.prototype.toFixed(2)` (modelled in its `|x| < 10^21` branch). -/
def jsToFixed2 (x : JsNum) : String :=
  match x with
  | JsNum.nan => "NaN"
  | JsNum.posInf => "Infinity"
  | JsNum.negInf => "-Infinity"
  | JsNum.num q =>
    let n := fixed2Nat q
    String.mk ((if q < 0 then ['-'] else []) ++ natDecChars (n / 100) ++
      '.' :: [digitChar (n % 100 / 10), digitChar (n % 100 % 10)])

/-- Binary `Math.min` step (NaN-propagating, `Infinity` as identity). -/
def jsMin2 : JsNum → JsNum → JsNum
  | JsNum.nan, _ => JsNum.nan
  | _, JsNum.nan => JsNum.nan
  | JsNum.posInf, b => b
  | a, JsNum.posInf => a
  | JsNum.negInf, _ => JsNum.negInf
  | _, JsNum.negInf => JsNum.negInf
  | JsNum.num a, JsNum.num b => JsNum.num (min a b)

/-- `Math.min(...l)`: `Infinity` for no arguments, `NaN`-propagating. -/
def jsMinList (l : List JsNum) : JsNum := l.foldl jsMin2 JsNum.posInf

/-- JavaScript `+` on numbers. -/
def jsAdd : JsNum → JsNum → JsNum
  | JsNum.nan, _ => JsNum.nan
  | _, JsNum.nan => JsNum.nan
  | JsNum.posInf, JsNum.negInf => JsNum.nan
  | JsNum.negInf, JsNum.posInf => JsNum.nan
  | JsNum.posInf, _ => JsNum.posInf
  | _, JsNum.posInf => JsNum.posInf
  | JsNum.negInf, _ => JsNum.negInf
  | _, JsNum.negInf => JsNum.negInf
  | JsNum.num a, JsNum.num b => JsNum.num (a + b)

/-- JavaScript `-` on numbers. -/
def jsSub : JsNum → JsNum → JsNum
  | JsNum.nan, _ => JsNum.nan
  | _, JsNum.nan => JsNum.nan
  | JsNum.posInf, JsNum.posInf => JsNum.nan
  | JsNum.negInf, JsNum.negInf => JsNum.nan
  | JsNum.posInf, _ => JsNum.posInf
  | _, JsNum.posInf => JsNum.negInf
  | JsNum.negInf, _ => JsNum.negInf
  | _, JsNum.negInf => JsNum.posInf
  | JsNum.num a, JsNum.num b => JsNum.num (a - b)

namespace Tracker

/-- A price-history sample: a (date, numeric price) pair. -/
structure PriceHistoryEntry where
  date : String
  price : JsNum
deriving DecidableEq

/-- A vendor listing of a part. -/
structure Store where
  id : String
  name : String
  url : String
  price : String
  inStock : Bool
  priceHistory : List PriceHistoryEntry
  priceAlert : Option JsNum := none
  tempPrice : Option String := none
deriving DecidableEq

/-- A tracked PC component. -/
structure Part where
  id : String
  name : String
  type : String
  stores : List Store
  lastChecked : String
  compatibility : Option (List String) := none
deriving DecidableEq

/-- A named, dated snapshot of the whole Part catalog. -/
structure SavedBuild where
  id : String
  name : String
  date : String
  parts : List Part
deriving DecidableEq

/-- The in-progress add-part form value (`Partial<Part>`). -/
structure NewPart where
  name : Option String := none
  type : Option String := none
  stores : Option (List Store) := none
deriving DecidableEq

/-- The part-type enumeration. -/
def partTypes : List String :=
  ["CPU", "GPU", "Motherboard", "RAM", "Storage", "PSU", "Case", "Cooling"]

/-- The slice of React state the persistence claims are about. `storage`
models the `savedBuilds` key of `localStorage` (the serialized blob is
identified with the list it serializes). -/
structure BuildState where
  parts : List Part
  savedBuilds : List SavedBuild
  buildName : String
  storage : Option (List SavedBuild)
  showSaveDialog : Bool
  showLoadDialog : Bool
deriving DecidableEq

/-- `handleSaveBuild`: abort on a blank (trimmed) name; otherwise append a
snapshot of the current parts list and write the whole list to storage. -/
def handleSaveBuild (newId date : String) (s : BuildState) : BuildState :=
  if jsTrim s.buildName = "" then s
  else
    let newBuild : SavedBuild :=
      { id := newId, name := s.buildName, date := date, parts := s.parts }
    let updatedBuilds := s.savedBuilds ++ [newBuild]
    { s with
      savedBuilds := updatedBuilds
      storage := some updatedBuilds
      buildName := ""
      showSaveDialog := false }

/-- `handleLoadBuild`: replace the live catalog with the snapshot's parts. -/
def handleLoadBuild (build : SavedBuild) (s : BuildState) : BuildState :=
  { s with
    parts := build.parts
    showLoadDialog := false }

/-- `handleDeleteBuild`: drop the snapshots with the given id and write the
whole list back to storage. -/
def handleDeleteBuild (buildId : String) (s : BuildState) : BuildState :=
  let updatedBuilds := s.savedBuilds.filter fun build => build.id ≠ buildId
  { s with
    savedBuilds := updatedBuilds
    storage := some updatedBuilds }

/-- `updatePriceHistory`: parse the new price (after removing `'$'`); on NaN
keep the history; otherwise append a (today, price) entry unless the last
entry already has that exact date and price. -/
def updatePriceHistory (today : String) (store : Store) (newPrice : String) :
    List PriceHistoryEntry :=
  let priceNum := jsParseFloat (jsReplaceDollar newPrice)
  if priceNum = JsNum.nan then store.priceHistory
  else
    match store.priceHistory.getLast? with
    | none => store.priceHistory ++ [{ date := today, price := priceNum }]
    | some lastEntry =>
      if lastEntry.price ≠ priceNum ∨ lastEntry.date ≠ today then
        store.priceHistory ++ [{ date := today, price := priceNum }]
      else store.priceHistory

/-- Validation in `handleAddPart`: a truthy name and, for every submitted
store, a truthy name, url and price (an absent stores list is falsy). -/
def newPartValid (np : NewPart) : Bool :=
  (match np.name with | some n => n ≠ "" | none => false) &&
  (match np.stores with
   | some ss => ss.all fun store => store.name ≠ "" && store.url ≠ "" && store.price ≠ ""
   | none => false)

/-- `handleAddPart`: on validation failure leave the catalog unchanged;
otherwise seed each store's history from its submitted price and append the
new part. -/
def handleAddPart (today newId : String) (np : NewPart) (parts : List Part) :
    List Part :=
  if newPartValid np then
    let storesWithHistory := (np.stores.getD []).map fun store =>
      { store with priceHistory := updatePriceHistory today store store.price }
    parts ++ [{ id := newId, name := np.name.getD "", type := np.type.getD "",
                stores := storesWithHistory, lastChecked := today }]
  else parts

/-- `handleDeletePart`. -/
def handleDeletePart (id : String) (parts : List Part) : List Part :=
  parts.filter fun part => part.id ≠ id

/-- `handlePriceInputChange`: buffer the edited text in `tempPrice`. -/
def handlePriceInputChange (partId storeId : String) (value : String)
    (parts : List Part) : List Part :=
  parts.map fun part =>
    if part.id = partId then
      { part with stores := part.stores.map fun store =>
          if store.id = storeId then { store with tempPrice := some value }
          else store }
    else part

/-- `handlePriceUpdate`: set the price text, clear the edit buffer, refresh
the part's last-checked date and update the store's price history. -/
def handlePriceUpdate (today partId storeId newPrice : String)
    (parts : List Part) : List Part :=
  parts.map fun part =>
    if part.id = partId then
      { part with
        lastChecked := today
        stores := part.stores.map fun store =>
          if store.id = storeId then
            { store with
              price := newPrice
              tempPrice := none
              priceHistory := updatePriceHistory today store newPrice }
          else store }
    else part

/-- `toggleStock`. -/
def toggleStock (today partId storeId : String) (parts : List Part) :
    List Part :=
  parts.map fun part =>
    if part.id = partId then
      { part with
        lastChecked := today
        stores := part.stores.map fun store =>
          if store.id = storeId then { store with inStock := !store.inStock }
          else store }
    else part

/-- `setPriceAlert`. -/
def setPriceAlert (partId storeId : String) (price : JsNum)
    (parts : List Part) : List Part :=
  parts.map fun part =>
    if part.id = partId then
      { part with stores := part.stores.map fun store =>
          if store.id = storeId then { store with priceAlert := some price }
          else store }
    else part

/-- A fresh, empty store listing for the add-part form. -/
def freshStore (storeId : String) : Store :=
  { id := storeId, name := "", url := "", price := "", inStock := false,
    priceHistory := [] }

/-- The initial add-part form value. -/
def initialNewPart (storeId : String) : NewPart :=
  { type := some (partTypes.getD 0 ""), stores := some [freshStore storeId] }

/-- `handleAddStore` on the add-part form. -/
def handleAddStore (storeId : String) (np : NewPart) : NewPart :=
  { np with stores := some ((np.stores.getD []) ++ [freshStore storeId]) }

/-- `handleRemoveStore` on the add-part form: refuse when at most one store
is present, else drop the stores with the given id. -/
def handleRemoveStore (storeId : String) (np : NewPart) : NewPart :=
  if (np.stores.getD []).length ≤ 1 then np
  else { np with stores := some ((np.stores.getD []).filter fun store => store.id ≠ storeId) }

/-- A single-field store update, as fired by `handleStoreChange`. -/
inductive StoreField where
  | id (v : String)
  | name (v : String)
  | url (v : String)
  | price (v : String)
  | inStock (v : Bool)
  | priceAlert (v : JsNum)
  | tempPrice (v : String)
deriving DecidableEq

/-- Apply a single-field update to a store. -/
def setStoreField (s : Store) : StoreField → Store
  | StoreField.id v => { s with id := v }
  | StoreField.name v => { s with name := v }
  | StoreField.url v => { s with url := v }
  | StoreField.price v => { s with price := v }
  | StoreField.inStock v => { s with inStock := v }
  | StoreField.priceAlert v => { s with priceAlert := some v }
  | StoreField.tempPrice v => { s with tempPrice := some v }

/-- `handleStoreChange` on the add-part form. -/
def handleStoreChange (storeId : String) (f : StoreField) (np : NewPart) :
    NewPart :=
  { np with stores := some ((np.stores.getD []).map fun store =>
      if store.id = storeId then setStoreField store f else store) }

/-- `getBestPrice`: format the minimum of the parsed store prices. -/
def getBestPrice (stores : List Store) : String :=
  let prices := stores.map fun store => jsParseFloat (jsReplaceDollar store.price)
  "$" ++ jsToFixed2 (jsMinList prices)

/-- `getAvailabilityStatus`. -/
def getAvailabilityStatus (stores : List Store) : Bool :=
  stores.any fun store => store.inStock

/-- The number a part contributes to the total: the best-price string,
stripped of `'$'` and re-parsed. -/
def bestNum (part : Part) : JsNum :=
  jsParseFloat (jsReplaceDollar (getBestPrice part.stores))

/-- `getTotalBuildCost`: reduce over the catalog, re-parsing each part's
formatted best price. -/
def getTotalBuildCost (parts : List Part) : JsNum :=
  parts.foldl (fun total part => jsAdd total (bestNum part)) (JsNum.num 0)

end Tracker

namespace Tracker

/-- Merge step of the model of `Array.prototype.sort`: take from the left
while `le` holds. -/
def jsMergeBy (le : Part → Part → Bool) : List Part → List Part → List Part
  | [], r => r
  | l, [] => l
  | a :: l, b :: r =>
    if le a b then a :: jsMergeBy le l (b :: r)
    else b :: jsMergeBy le (a :: l) r
termination_by l r => l.length + r.length

/-- Split a list into two interleaved halves. -/
def halve : List Part → List Part × List Part
  | [] => ([], [])
  | a :: rest =>
    let p := halve rest
    (a :: p.2, p.1)

/-- Fueled top-down merge sort; the fuel is always instantiated with the
length of the list, which suffices. -/
def jsSortFuel (le : Part → Part → Bool) : Nat → List Part → List Part
  | _, [] => []
  | _, [a] => [a]
  | 0, l => l
  | n + 1, a :: b :: rest =>
    jsMergeBy le (jsSortFuel le n (halve (a :: b :: rest)).1)
      (jsSortFuel le n (halve (a :: b :: rest)).2)

/-- The model of `Array.prototype.sort(cmp)`. -/
def jsSortBy (le : Part → Part → Bool) (l : List Part) : List Part :=
  jsSortFuel le l.length l

/-- The sort mode selected in the UI. -/
inductive SortKey where
  | name
  | price
  | availability
deriving DecidableEq

/-- `a.name.localeCompare(b.name)`, modelled as code-point comparison. -/
def localeCompare (a b : String) : JsNum :=
  if a < b then JsNum.num (-1) else if a = b then JsNum.num 0 else JsNum.num 1

/-- The comparator passed to `.sort` in `filteredAndSortedParts`. -/
def partCompare (sortBy : SortKey) (a b : Part) : JsNum :=
  match sortBy with
  | SortKey.name => localeCompare a.name b.name
  | SortKey.price =>
    jsSub (jsParseFloat (jsReplaceDollar (getBestPrice a.stores)))
      (jsParseFloat (jsReplaceDollar (getBestPrice b.stores)))
  | SortKey.availability =>
    if getAvailabilityStatus b.stores then JsNum.num 1 else JsNum.num (-1)

/-- ECMAScript `SortCompare`: a comparator value `v` puts `a` before `b`
when `v ≤ 0`, with `NaN` treated as `+0`. -/
def cmpLe (v : JsNum) : Bool :=
  match v with
  | JsNum.num q => decide (q ≤ 0)
  | JsNum.nan => true
  | JsNum.posInf => false
  | JsNum.negInf => true

/-- `filteredAndSortedParts`: filter by the selected category, then sort by
the selected key. -/
def filteredAndSortedParts (selectedType : String) (sortBy : SortKey)
    (parts : List Part) : List Part :=
  jsSortBy (fun a b => cmpLe (partCompare sortBy a b))
    (parts.filter fun part => selectedType = "all" || part.type = selectedType)

/-- The finite value of a `JsNum` (0 at the non-finite values). -/
def toFinite : JsNum → ℚ
  | JsNum.num q => q
  | _ => 0

/-- Specification-side best price: the minimum of the parsed store prices,
as a rational (meaningful when all prices parse to finite values). -/
def specMinPrice (stores : List Store) : ℚ :=
  match stores.map fun s => toFinite (jsParseFloat (jsReplaceDollar s.price)) with
  | [] => 0
  | q :: qs => qs.foldl min q

/-- The catalog invariant of the specification: every part has a store. -/
def PartsInv (parts : List Part) : Prop := ∀ p ∈ parts, p.stores ≠ []

/-- The add-form invariant: the submitted stores list is non-empty. -/
def NewPartInv (np : NewPart) : Prop := np.stores.getD [] ≠ []

/-- First store of the specification's worked example. -/
def exStore1 : Store :=
  { id := "1a", name := "Newegg", url := "n", price := "$449.99",
    inStock := true, priceHistory := [] }

/-- Second store of the specification's worked example. -/
def exStore2 : Store :=
  { id := "1b", name := "Amazon", url := "a", price := "$459.99",
    inStock := false, priceHistory := [] }

/-- The specification's worked example part. -/
def examplePart : Part :=
  { id := "1", name := "AMD Ryzen 7 7800X3D", type := "CPU",
    stores := [exStore1, exStore2], lastChecked := "d" }

/-- Availability-partitioned: the available parts form a prefix and the
unavailable ones the matching suffix. -/
def AvFirst (l : List Part) : Prop :=
  ∃ l₁ l₂, l = l₁ ++ l₂ ∧
    (∀ p ∈ l₁, getAvailabilityStatus p.stores = true) ∧
    (∀ p ∈ l₂, getAvailabilityStatus p.stores = false)

end Tracker

namespace Tracker

theorem filter_ne_id_of_nodup (pre post : List SavedBuild) (b : SavedBuild)
    (hnd : ((pre ++ b :: post).map SavedBuild.id).Nodup) :
    (pre ++ b :: post).filter (fun build => build.id ≠ b.id) = pre ++ post := by
  rw [List.map_append, List.map_cons] at hnd
  rw [List.nodup_middle, List.nodup_cons] at hnd
  obtain ⟨hnot, -⟩ := hnd
  rw [List.mem_append, not_or] at hnot
  obtain ⟨h₁, h₂⟩ := hnot
  have hne : ∀ a : SavedBuild, a ∈ pre ∨ a ∈ post →
      (fun build => decide (build.id ≠ b.id)) a = true := by
    intro a ha
    simp only [decide_eq_true_eq, ne_eq]
    intro hc
    cases ha with
    | inl hp => exact h₁ (hc ▸ List.mem_map_of_mem SavedBuild.id hp)
    | inr hp => exact h₂ (hc ▸ List.mem_map_of_mem SavedBuild.id hp)
  rw [List.filter_append, List.filter_cons]
  have hb : (decide (b.id ≠ b.id)) = false := by simp
  rw [hb]
  simp only [Bool.false_eq_true, if_false]
  rw [List.filter_eq_self.mpr fun a ha => hne a (Or.inl ha),
    List.filter_eq_self.mpr fun a ha => hne a (Or.inr ha)]

/-- C5: with a blank (all-whitespace) build name, `handleSaveBuild` is a
silent no-op: no snapshot is created and the whole state — saved-builds
list, persisted storage, live catalog — is returned unchanged. -/
theorem saveBuild_blank_name_noop (s : BuildState) (newId date : String)
    (h : jsTrim s.buildName = "") :
    handleSaveBuild newId date s = s := by
  simp [handleSaveBuild, h]

/-- Witness for C5 at a concrete whitespace-only name. -/
theorem saveBuild_blank_name_noop_witness :
    handleSaveBuild "9" "1/2/2024"
      { parts := [], savedBuilds := [], buildName := "  ", storage := none,
        showSaveDialog := true, showLoadDialog := false } =
      { parts := [], savedBuilds := [], buildName := "  ", storage := none,
        showSaveDialog := true, showLoadDialog := false } :=
  saveBuild_blank_name_noop _ "9" "1/2/2024" (by decide)

/-- C3: with a non-blank name, `handleSaveBuild` appends a snapshot holding
the parts list at save time, and loading that snapshot restores exactly
that list even after the live catalog has been replaced by an arbitrary
further update `f`. -/
theorem save_then_load_roundtrip (s : BuildState) (newId date : String)
    (f : List Part → List Part) (h : ¬ jsTrim s.buildName = "") :
    (handleSaveBuild newId date s).savedBuilds =
      s.savedBuilds ++
        [{ id := newId, name := s.buildName, date := date, parts := s.parts }] ∧
    (handleLoadBuild
        { id := newId, name := s.buildName, date := date, parts := s.parts }
        { handleSaveBuild newId date s with
          parts := f (handleSaveBuild newId date s).parts }).parts = s.parts := by
  constructor
  · simp [handleSaveBuild, h]
  · simp [handleLoadBuild]

/-- Witness for C3 at a concrete state and a destructive later mutation. -/
theorem save_then_load_roundtrip_witness :
    (handleSaveBuild "7" "1/2/2024"
        { parts := [{ id := "p", name := "CPU A", type := "CPU", stores := [],
                      lastChecked := "d" }],
          savedBuilds := [], buildName := "My Build", storage := none,
          showSaveDialog := true, showLoadDialog := false }).savedBuilds =
      [] ++ [{ id := "7", name := "My Build", date := "1/2/2024",
               parts := [{ id := "p", name := "CPU A", type := "CPU", stores := [],
                           lastChecked := "d" }] }] ∧
    (handleLoadBuild
        { id := "7", name := "My Build", date := "1/2/2024",
          parts := [{ id := "p", name := "CPU A", type := "CPU", stores := [],
                      lastChecked := "d" }] }
        { handleSaveBuild "7" "1/2/2024"
            { parts := [{ id := "p", name := "CPU A", type := "CPU", stores := [],
                          lastChecked := "d" }],
              savedBuilds := [], buildName := "My Build", storage := none,
              showSaveDialog := true, showLoadDialog := false } with
          parts := (fun _ => []) (handleSaveBuild "7" "1/2/2024"
            { parts := [{ id := "p", name := "CPU A", type := "CPU", stores := [],
                          lastChecked := "d" }],
              savedBuilds := [], buildName := "My Build", storage := none,
              showSaveDialog := true, showLoadDialog := false }).parts }).parts =
      [{ id := "p", name := "CPU A", type := "CPU", stores := [], lastChecked := "d" }] :=
  save_then_load_roundtrip _ "7" "1/2/2024" (fun _ => []) (by decide)

/-- C6: when the saved-build ids are pairwise distinct, `handleDeleteBuild`
removes exactly the snapshot with the given id, keeps every other snapshot
and their relative order, and writes the shrunken list to storage. -/
theorem deleteBuild_removes_exactly_one (pre post : List SavedBuild)
    (b : SavedBuild) (s : BuildState) (hs : s.savedBuilds = pre ++ b :: post)
    (hnd : ((pre ++ b :: post).map SavedBuild.id).Nodup) :
    (handleDeleteBuild b.id s).savedBuilds = pre ++ post ∧
    (handleDeleteBuild b.id s).storage = some (pre ++ post) := by
  have hfil := filter_ne_id_of_nodup pre post b hnd
  refine ⟨?_, ?_⟩
  · show (s.savedBuilds.filter fun build => build.id ≠ b.id) = pre ++ post
    rw [hs]
    exact hfil
  · show some (s.savedBuilds.filter fun build => build.id ≠ b.id) = some (pre ++ post)
    rw [hs, hfil]

/-- Witness for C6 on a concrete two-snapshot list. -/
theorem deleteBuild_removes_exactly_one_witness :
    (handleDeleteBuild "2"
        { parts := [], savedBuilds := [⟨"1", "A", "d", []⟩, ⟨"2", "B", "d", []⟩],
          buildName := "", storage := none, showSaveDialog := false,
          showLoadDialog := false }).savedBuilds = [⟨"1", "A", "d", []⟩] ++ [] ∧
    (handleDeleteBuild "2"
        { parts := [], savedBuilds := [⟨"1", "A", "d", []⟩, ⟨"2", "B", "d", []⟩],
          buildName := "", storage := none, showSaveDialog := false,
          showLoadDialog := false }).storage = some ([⟨"1", "A", "d", []⟩] ++ []) :=
  deleteBuild_removes_exactly_one [⟨"1", "A", "d", []⟩] [] ⟨"2", "B", "d", []⟩ _
    rfl (by decide)

end Tracker

namespace Tracker

/-- C2: when the new price parses (after `'$'`-stripping) to a finite
number `p`, `updatePriceHistory` returns the history with exactly one
`(today, p)` entry appended at the end, unless the most recent entry is
exactly `(today, p)`, in which case the history is returned unchanged;
existing entries are never edited, removed or reordered. -/
theorem updateHistory_append_or_skip (today : String) (store : Store)
    (newPrice : String) (p : ℚ)
    (h : jsParseFloat (jsReplaceDollar newPrice) = JsNum.num p) :
    updatePriceHistory today store newPrice =
      if store.priceHistory.getLast? =
          some { date := today, price := JsNum.num p } then
        store.priceHistory
      else store.priceHistory ++ [{ date := today, price := JsNum.num p }] := by
  unfold updatePriceHistory
  rw [h]
  simp only [reduceCtorEq, if_false]
  cases hl : store.priceHistory.getLast? with
  | none => simp
  | some e =>
    obtain ⟨ed, ep⟩ := e
    by_cases hp : ep = JsNum.num p
    · by_cases hd : ed = today
      · subst hp hd
        simp
      · simp [hd]
    · simp [hp]

/-- Witness for C2: a concrete parse-able price appended to an empty
history. -/
theorem updateHistory_append_or_skip_witness :
    updatePriceHistory "1/2/2024"
        { id := "s", name := "Newegg", url := "u", price := "$4.00",
          inStock := true, priceHistory := [] } "$5.00" =
      if ([] : List PriceHistoryEntry).getLast? =
          some { date := "1/2/2024", price := JsNum.num 5 } then
        ([] : List PriceHistoryEntry)
      else [] ++ [{ date := "1/2/2024", price := JsNum.num 5 }] :=
  updateHistory_append_or_skip "1/2/2024" _ "$5.00" 5 (by
    simp [jsParseFloat, jsReplaceDollar, parseFloatChars, parseAfterSign,
      parsedMag, parseFrac, skipWs, parseSign, stripInfinity, takeDigits,
      digitsVal, charVal, parseExp, expFactor, replaceFirstDollar, isJsWs])

/-- C4: when the new price fails to parse (NaN), `handlePriceUpdate` still
sets the target store's price text (and clears its edit buffer, refreshing
the part's last-checked date) but leaves its price history unchanged. -/
theorem priceUpdate_nan_keeps_history (today partId storeId newPrice : String)
    (parts : List Part)
    (h : jsParseFloat (jsReplaceDollar newPrice) = JsNum.nan) :
    handlePriceUpdate today partId storeId newPrice parts =
      parts.map fun part =>
        if part.id = partId then
          { part with
            lastChecked := today
            stores := part.stores.map fun store =>
              if store.id = storeId then
                { store with
                  price := newPrice
                  tempPrice := none }
              else store }
        else part := by
  unfold handlePriceUpdate updatePriceHistory
  rw [h]
  simp

/-- Witness for C4 at a concrete unparseable price. -/
theorem priceUpdate_nan_keeps_history_witness :
    handlePriceUpdate "1/3/2024" "p" "s" "abc"
        [{ id := "p", name := "CPU A", type := "CPU", lastChecked := "d",
           stores := [{ id := "s", name := "Newegg", url := "u",
                        price := "$4.00", inStock := true,
                        priceHistory := [{ date := "d", price := JsNum.num 4 }] }] }] =
      [{ id := "p", name := "CPU A", type := "CPU", lastChecked := "d",
         stores := [{ id := "s", name := "Newegg", url := "u",
                      price := "$4.00", inStock := true,
                      priceHistory := [{ date := "d", price := JsNum.num 4 }] }] }].map
        (fun part =>
          if part.id = "p" then
            { part with
              lastChecked := "1/3/2024"
              stores := part.stores.map fun store =>
                if store.id = "s" then
                  { store with
                    price := "abc"
                    tempPrice := none }
                else store }
          else part) :=
  priceUpdate_nan_keeps_history "1/3/2024" "p" "s" "abc" _ rfl

end Tracker

namespace Tracker

theorem partsInv_map_of (parts : List Part) (f : Part → Part)
    (hf : ∀ p, (f p).stores = [] → p.stores = []) (h : PartsInv parts) :
    PartsInv (parts.map f) := by
  intro p hp
  obtain ⟨q, hq, rfl⟩ := List.mem_map.mp hp
  intro hnil
  exact h q hq (hf q hnil)

/-- C8 counterexample: a submission with a non-empty name but an *empty*
stores list passes validation (`every` is vacuously true on `[]`) and
creates a part with no stores, violating the ≥ 1-store invariant. -/
theorem addPart_empty_stores_counterexample :
    newPartValid { name := some "Part X", type := some "CPU",
                   stores := some [] } = true ∧
    handleAddPart "1/1/2024" "id9"
        { name := some "Part X", type := some "CPU", stores := some [] } [] =
      [{ id := "id9", name := "Part X", type := "CPU", stores := [],
         lastChecked := "1/1/2024" }] ∧
    ({ id := "id9", name := "Part X", type := "CPU", stores := [],
       lastChecked := "1/1/2024" } : Part).stores = [] :=
  ⟨rfl, rfl, rfl⟩

/-- C8 (amended): the ≥ 1-store catalog invariant is preserved by every
catalog operation; a failed add leaves the catalog unchanged, and a
validated add from a form whose submitted stores list is non-empty adds a
part with at least one store. The add-form operations keep the submitted
stores list non-empty (remove-store under pairwise-distinct store ids,
matching its own one-store guard). -/
theorem catalog_invariant_preserved :
    (∀ today newId np parts, newPartValid np = false →
      handleAddPart today newId np parts = parts) ∧
    (∀ today newId np parts ss, np.stores = some ss → ss ≠ [] →
      PartsInv parts → PartsInv (handleAddPart today newId np parts)) ∧
    (∀ pid parts, PartsInv parts → PartsInv (handleDeletePart pid parts)) ∧
    (∀ today pid sid parts, PartsInv parts →
      PartsInv (toggleStock today pid sid parts)) ∧
    (∀ today pid sid price parts, PartsInv parts →
      PartsInv (handlePriceUpdate today pid sid price parts)) ∧
    (∀ pid sid v parts, PartsInv parts →
      PartsInv (handlePriceInputChange pid sid v parts)) ∧
    (∀ pid sid price parts, PartsInv parts →
      PartsInv (setPriceAlert pid sid price parts)) ∧
    (∀ b s, PartsInv b.parts → PartsInv (handleLoadBuild b s).parts) ∧
    (∀ sid, NewPartInv (initialNewPart sid)) ∧
    (∀ sid np, NewPartInv np → NewPartInv (handleAddStore sid np)) ∧
    (∀ sid np, ((np.stores.getD []).map Store.id).Nodup → NewPartInv np →
      NewPartInv (handleRemoveStore sid np)) ∧
    (∀ sid f np, NewPartInv np → NewPartInv (handleStoreChange sid f np)) := by
  refine ⟨?_, ?_, ?_, ?_, ?_, ?_, ?_, ?_, ?_, ?_, ?_, ?_⟩
  · intro today newId np parts hval
    simp [handleAddPart, hval]
  · intro today newId np parts ss hss hne hinv
    unfold handleAddPart
    by_cases hval : newPartValid np
    · rw [if_pos hval]
      intro p hp
      rcases List.mem_append.mp hp with hmem | hmem
      · exact hinv p hmem
      · rcases List.mem_singleton.mp hmem with rfl
        simp only [hss, Option.getD_some]
        intro hnil
        exact hne (List.map_eq_nil.mp hnil)
    · rw [if_neg hval]
      exact hinv
  · intro pid parts hinv p hp
    exact hinv p (List.mem_of_mem_filter hp)
  · intro today pid sid parts hinv
    apply partsInv_map_of _ _ _ hinv
    intro p
    by_cases hid : p.id = pid <;> simp [hid, List.map_eq_nil]
  · intro today pid sid price parts hinv
    apply partsInv_map_of _ _ _ hinv
    intro p
    by_cases hid : p.id = pid <;> simp [hid, List.map_eq_nil]
  · intro pid sid v parts hinv
    apply partsInv_map_of _ _ _ hinv
    intro p
    by_cases hid : p.id = pid <;> simp [hid, List.map_eq_nil]
  · intro pid sid price parts hinv
    apply partsInv_map_of _ _ _ hinv
    intro p
    by_cases hid : p.id = pid <;> simp [hid, List.map_eq_nil]
  · intro b s hinv
    exact hinv
  · intro sid
    simp [NewPartInv, initialNewPart]
  · intro sid np h
    simp [NewPartInv, handleAddStore]
  · intro sid np hnd h
    unfold handleRemoveStore
    by_cases hlen : (np.stores.getD []).length ≤ 1
    · rw [if_pos hlen]
      exact h
    · rw [if_neg hlen]
      simp only [NewPartInv, Option.getD_some]
      intro hnil
      rw [List.filter_eq_nil] at hnil
      rcases hl : np.stores.getD [] with - | ⟨x, rest⟩
      · rw [hl] at hlen
        simp at hlen
      · rcases rest with - | ⟨y, rest2⟩
        · rw [hl] at hlen
          simp at hlen
        · have hx := hnil x (by rw [hl]; exact List.mem_cons_self x _)
          have hy := hnil y (by rw [hl]; exact List.mem_cons.mpr (Or.inr (List.mem_cons_self y _)))
          simp only [ne_eq, decide_not, Bool.not_eq_eq_eq_not, Bool.not_true,
            decide_eq_false_iff_not, not_not] at hx hy
          rw [hl, List.map_cons, List.map_cons, List.nodup_cons] at hnd
          exact hnd.1 (by rw [hx, ← hy]; exact List.mem_cons_self y.id _)
  · intro sid f np h
    simp [NewPartInv, handleStoreChange]
    intro hnil
    exact h (by simp [NewPartInv, hnil])

/-- Witness for C8 (amended), instantiating every conjunct at concrete
inputs. -/
theorem catalog_invariant_preserved_witness :
    (handleAddPart "d" "i" { name := none } [] = []) ∧
    PartsInv (handleAddPart "d" "i"
      { name := some "X", type := some "CPU",
        stores := some [freshStore "s"] } []) ∧
    PartsInv (handleDeletePart "p" []) ∧
    PartsInv (toggleStock "d" "p" "s" []) ∧
    PartsInv (handlePriceUpdate "d" "p" "s" "$1" []) ∧
    PartsInv (handlePriceInputChange "p" "s" "x" []) ∧
    PartsInv (setPriceAlert "p" "s" (JsNum.num 1) []) ∧
    PartsInv (handleLoadBuild ⟨"b", "B", "d", []⟩
      { parts := [], savedBuilds := [], buildName := "", storage := none,
        showSaveDialog := false, showLoadDialog := false }).parts ∧
    NewPartInv (initialNewPart "s") ∧
    NewPartInv (handleAddStore "t" (initialNewPart "s")) ∧
    NewPartInv (handleRemoveStore "t" (initialNewPart "s")) ∧
    NewPartInv (handleStoreChange "s" (StoreField.name "N") (initialNewPart "s")) := by
  obtain ⟨h1, h2, h3, h4, h5, h6, h7, h8, h9, h10, h11, h12⟩ :=
    catalog_invariant_preserved
  have hemp : PartsInv [] := by intro p hp; cases hp
  exact ⟨h1 "d" "i" { name := none } [] rfl,
    h2 "d" "i" _ [] [freshStore "s"] rfl (by decide) hemp,
    h3 "p" [] hemp, h4 "d" "p" "s" [] hemp, h5 "d" "p" "s" "$1" [] hemp,
    h6 "p" "s" "x" [] hemp, h7 "p" "s" (JsNum.num 1) [] hemp,
    h8 ⟨"b", "B", "d", []⟩ _ hemp, h9 "s", h10 "t" _ (h9 "s"),
    h11 "t" _ (by decide) (h9 "s"), h12 "s" (StoreField.name "N") _ (h9 "s")⟩

end Tracker

theorem charVal_digitChar (d : Nat) (hd : d < 10) : charVal (digitChar d) = d := by
  interval_cases d <;> rfl

theorem isDigit_digitChar (d : Nat) (hd : d < 10) : (digitChar d).isDigit = true := by
  interval_cases d <;> rfl

theorem natDecChars_digits (m : Nat) : ∀ c ∈ natDecChars m, c.isDigit = true := by
  intro c hc
  unfold natDecChars at hc
  by_cases hm : m = 0
  · rw [if_pos hm] at hc
    rcases List.mem_singleton.mp hc with rfl
    rfl
  · rw [if_neg hm] at hc
    obtain ⟨d, hd, rfl⟩ := List.mem_map.mp hc
    exact isDigit_digitChar d
      (Nat.digits_lt_base (by norm_num) (List.mem_reverse.mp hd))

theorem natDecChars_ne_nil (m : Nat) : natDecChars m ≠ [] := by
  unfold natDecChars
  by_cases hm : m = 0
  · simp [hm]
  · rw [if_neg hm]
    simp [Nat.digits_ne_nil_iff_ne_zero.mpr hm]

theorem takeDigits_append (ds rest : List Char) (hds : ∀ c ∈ ds, c.isDigit = true)
    (hrest : ∀ c, rest.head? = some c → c.isDigit = false) :
    takeDigits (ds ++ rest) = (ds, rest) := by
  induction ds with
  | nil =>
    simp only [List.nil_append]
    cases rest with
    | nil => rfl
    | cons c cs =>
      unfold takeDigits
      rw [hrest c rfl]
      simp
  | cons c cs ih =>
    unfold takeDigits
    simp only [List.cons_append]
    rw [hds c (List.mem_cons_self c cs)]
    rw [ih fun x hx => hds x (List.mem_cons_of_mem c hx)]
    simp

theorem foldl_digits_map (l : List Nat) (hl : ∀ d ∈ l, d < 10) :
    ∀ a : Nat, (l.map digitChar).foldl (fun x c => x * 10 + charVal c) a =
      l.foldl (fun x d => x * 10 + d) a := by
  induction l with
  | nil => intro a; rfl
  | cons d ds ih =>
    intro a
    simp only [List.map_cons, List.foldl_cons]
    rw [charVal_digitChar d (hl d (List.mem_cons_self d ds))]
    exact ih (fun x hx => hl x (List.mem_cons_of_mem d hx)) _

theorem foldl_reverse_ofDigits (l : List Nat) :
    l.reverse.foldl (fun x d => x * 10 + d) 0 = Nat.ofDigits 10 l := by
  induction l with
  | nil => rfl
  | cons d ds ih =>
    rw [List.reverse_cons, List.foldl_append, ih, Nat.ofDigits_cons]
    simp only [List.foldl_cons, List.foldl_nil]
    omega

theorem digitsVal_natDecChars (m : Nat) : digitsVal (natDecChars m) = m := by
  unfold natDecChars digitsVal
  by_cases hm : m = 0
  · rw [if_pos hm, hm]
    rfl
  · rw [if_neg hm]
    rw [foldl_digits_map _ fun d hd =>
      Nat.digits_lt_base (by norm_num) (List.mem_reverse.mp hd)]
    rw [foldl_reverse_ofDigits, Nat.ofDigits_digits]

theorem not_ws_of_digit (c : Char) (h : c.isDigit = true) : isJsWs c = false := by
  unfold isJsWs
  by_contra hc
  simp only [Bool.not_eq_false, Bool.or_eq_true, decide_eq_true_eq] at hc
  rcases hc with ((hc | hc) | hc) | hc <;>
    · subst hc
      exact absurd h (by decide)

theorem skipWs_not_ws (c : Char) (l : List Char) (h : isJsWs c = false) :
    skipWs (c :: l) = c :: l := by
  unfold skipWs
  rw [h]
  simp

theorem parseSign_not_sign (c : Char) (l : List Char) (h1 : c ≠ '-')
    (h2 : c ≠ '+') : parseSign (c :: l) = (false, c :: l) := by
  rw [parseSign.eq_def]
  split <;> simp_all

theorem stripInfinity_not_i (c : Char) (l : List Char) (h : c ≠ 'I') :
    stripInfinity (c :: l) = none := by
  rw [stripInfinity.eq_def]
  split <;> simp_all

theorem digit_ne_minus (c : Char) (h : c.isDigit = true) : c ≠ '-' := by
  intro he
  rw [he] at h
  exact absurd h (by decide)

theorem digit_ne_plus (c : Char) (h : c.isDigit = true) : c ≠ '+' := by
  intro he
  rw [he] at h
  exact absurd h (by decide)

theorem digit_ne_i (c : Char) (h : c.isDigit = true) : c ≠ 'I' := by
  intro he
  rw [he] at h
  exact absurd h (by decide)

theorem expFactor_zero : expFactor 0 = 1 := by
  unfold expFactor
  norm_num

theorem parseExp_nil : parseExp [] = 0 := rfl

theorem takeDigits_all (ds : List Char) (hds : ∀ c ∈ ds, c.isDigit = true) :
    takeDigits ds = (ds, []) := by
  have h := takeDigits_append ds [] hds (fun x hx => by cases hx)
  rwa [List.append_nil] at h

theorem digitsVal_pair (b : Nat) (hb : b < 100) :
    digitsVal [digitChar (b / 10), digitChar (b % 10)] = b := by
  unfold digitsVal
  simp only [List.foldl_cons, List.foldl_nil]
  rw [charVal_digitChar _ (by omega), charVal_digitChar _ (by omega)]
  omega

theorem stripInfinity_natDec (a : Nat) (rest : List Char) :
    stripInfinity (natDecChars a ++ rest) = none := by
  obtain ⟨c, cs, hcs⟩ := List.exists_cons_of_ne_nil (natDecChars_ne_nil a)
  have hcdig : c.isDigit = true :=
    natDecChars_digits a c (hcs ▸ List.mem_cons_self c cs)
  rw [hcs, List.cons_append]
  exact stripInfinity_not_i c _ (digit_ne_i c hcdig)

theorem fracDigits_all (b : Nat) (hb : b < 100) :
    ∀ c ∈ [digitChar (b / 10), digitChar (b % 10)], c.isDigit = true := by
  intro c hc
  rcases List.mem_cons.mp hc with rfl | hc2
  · exact isDigit_digitChar _ (by omega)
  · rcases List.mem_cons.mp hc2 with rfl | hc3
    · exact isDigit_digitChar _ (by omega)
    · cases hc3

theorem takeDigits_fixed (a b : Nat) :
    takeDigits (natDecChars a ++
        '.' :: [digitChar (b / 10), digitChar (b % 10)]) =
      (natDecChars a, '.' :: [digitChar (b / 10), digitChar (b % 10)]) :=
  takeDigits_append _ _ (natDecChars_digits a)
    (fun x hx => by injection hx with hx; subst hx; rfl)

theorem parsedMag_fixed (a b : Nat) (hb : b < 100) :
    parsedMag (natDecChars a ++
        '.' :: [digitChar (b / 10), digitChar (b % 10)]) =
      (a : ℚ) + (b : ℚ) / 100 := by
  unfold parsedMag
  rw [takeDigits_fixed a b]
  simp only [parseFrac]
  rw [takeDigits_all _ (fracDigits_all b hb)]
  simp only []
  rw [digitsVal_natDecChars, digitsVal_pair b hb, parseExp_nil, expFactor_zero]
  norm_num

theorem parseAfterSign_fixed (neg : Bool) (a b : Nat) (hb : b < 100) :
    parseAfterSign neg (natDecChars a ++
        '.' :: [digitChar (b / 10), digitChar (b % 10)]) =
      JsNum.num (if neg then -((a : ℚ) + (b : ℚ) / 100)
        else (a : ℚ) + (b : ℚ) / 100) := by
  unfold parseAfterSign
  rw [stripInfinity_natDec a]
  simp only []
  rw [takeDigits_fixed a b]
  simp only [parseFrac]
  rw [takeDigits_all _ (fracDigits_all b hb)]
  rw [if_neg (by
    intro hcon
    exact natDecChars_ne_nil a hcon.1)]
  rw [parsedMag_fixed a b hb]

theorem parseFloatChars_fixed (neg : Bool) (a b : Nat) (hb : b < 100) :
    parseFloatChars ((if neg then ['-'] else []) ++ natDecChars a ++
        '.' :: [digitChar (b / 10), digitChar (b % 10)]) =
      JsNum.num (if neg then -((a : ℚ) + (b : ℚ) / 100)
        else (a : ℚ) + (b : ℚ) / 100) := by
  obtain ⟨c, cs, hcs⟩ := List.exists_cons_of_ne_nil (natDecChars_ne_nil a)
  have hcdig : c.isDigit = true :=
    natDecChars_digits a c (hcs ▸ List.mem_cons_self c cs)
  cases neg with
  | false =>
    simp only [Bool.false_eq_true, if_false, List.nil_append]
    unfold parseFloatChars
    rw [hcs, List.cons_append,
      skipWs_not_ws c _ (not_ws_of_digit c hcdig),
      parseSign_not_sign c _ (digit_ne_minus c hcdig) (digit_ne_plus c hcdig)]
    rw [← List.cons_append, ← hcs]
    have h := parseAfterSign_fixed false a b hb
    simp only [Bool.false_eq_true, if_false] at h
    exact h
  | true =>
    simp only [if_true, List.cons_append, List.singleton_append]
    unfold parseFloatChars
    rw [skipWs_not_ws '-' _ (by decide)]
    simp only [parseSign]
    have h := parseAfterSign_fixed true a b hb
    simp only [if_true] at h
    exact h

/-- Re-parsing the `toFixed(2)` rendering of a finite value yields the
two-decimal rounding of that value. -/
theorem parse_toFixed2 (q : ℚ) :
    jsParseFloat (jsToFixed2 (JsNum.num q)) = JsNum.num (round2 q) := by
  have hb : fixed2Nat q % 100 < 100 := Nat.mod_lt _ (by norm_num)
  have hdm : ((fixed2Nat q / 100 : ℕ) : ℚ) + ((fixed2Nat q % 100 : ℕ) : ℚ) / 100 =
      (fixed2Nat q : ℚ) / 100 := by
    field_simp
    norm_cast
    omega
  show parseFloatChars ((if q < 0 then ['-'] else []) ++
      natDecChars (fixed2Nat q / 100) ++
      '.' :: [digitChar (fixed2Nat q % 100 / 10),
        digitChar (fixed2Nat q % 100 % 10)]) = JsNum.num (round2 q)
  unfold round2
  by_cases hq : q < 0
  · rw [if_pos hq, if_pos hq]
    have h := parseFloatChars_fixed true (fixed2Nat q / 100) (fixed2Nat q % 100) hb
    simp only [if_true] at h
    rw [h, hdm]
  · rw [if_neg hq, if_neg hq]
    have h := parseFloatChars_fixed false (fixed2Nat q / 100) (fixed2Nat q % 100) hb
    simp only [Bool.false_eq_true, if_false, List.nil_append] at h
    rw [List.nil_append, h, hdm]

namespace Tracker

theorem toFinite_num (q : ℚ) : toFinite (JsNum.num q) = q := rfl

theorem foldl_jsMin2_num (qs : List ℚ) (a : ℚ) :
    (qs.map JsNum.num).foldl jsMin2 (JsNum.num a) = JsNum.num (qs.foldl min a) := by
  induction qs generalizing a with
  | nil => rfl
  | cons x xs ih =>
    simp only [List.map_cons, List.foldl_cons]
    exact ih (min a x)

theorem foldl_min_mem (xs : List ℚ) (a : ℚ) :
    xs.foldl min a = a ∨ xs.foldl min a ∈ xs := by
  induction xs generalizing a with
  | nil => exact Or.inl rfl
  | cons x l ih =>
    simp only [List.foldl_cons]
    rcases ih (min a x) with h | h
    · rcases min_choice a x with hm | hm
      · exact Or.inl (h.trans hm)
      · exact Or.inr (List.mem_cons.mpr (Or.inl (h.trans hm)))
    · exact Or.inr (List.mem_cons.mpr (Or.inr h))

theorem foldl_min_le (xs : List ℚ) (a : ℚ) :
    xs.foldl min a ≤ a ∧ ∀ x ∈ xs, xs.foldl min a ≤ x := by
  induction xs generalizing a with
  | nil => exact ⟨le_refl a, fun x hx => absurd hx (List.not_mem_nil x)⟩
  | cons x l ih =>
    simp only [List.foldl_cons]
    obtain ⟨h1, h2⟩ := ih (min a x)
    refine ⟨h1.trans (min_le_left a x), ?_⟩
    intro y hy
    rcases List.mem_cons.mp hy with rfl | hy2
    · exact h1.trans (min_le_right a y)
    · exact h2 y hy2

/-- For a non-empty store list whose prices all parse to finite values,
`Math.min` over the parsed prices is the `specMinPrice`, which is attained
and is a lower bound. -/
theorem jsMinList_finite (stores : List Store) (hne : stores ≠ [])
    (hfin : ∀ s ∈ stores, ∃ q : ℚ,
      jsParseFloat (jsReplaceDollar s.price) = JsNum.num q) :
    jsMinList (stores.map fun s => jsParseFloat (jsReplaceDollar s.price)) =
      JsNum.num (specMinPrice stores) ∧
    (∃ s ∈ stores,
      jsParseFloat (jsReplaceDollar s.price) = JsNum.num (specMinPrice stores)) ∧
    ∀ s ∈ stores, ∀ r : ℚ,
      jsParseFloat (jsReplaceDollar s.price) = JsNum.num r →
        specMinPrice stores ≤ r := by
  have hcongr : stores.map (fun s => jsParseFloat (jsReplaceDollar s.price)) =
      (stores.map fun s => toFinite (jsParseFloat (jsReplaceDollar s.price))).map
        JsNum.num := by
    rw [List.map_map]
    apply List.map_congr_left
    intro s hs
    obtain ⟨q, hq⟩ := hfin s hs
    simp [hq, toFinite]
  cases stores with
  | nil => exact absurd rfl hne
  | cons s0 rest =>
    have hmin : specMinPrice (s0 :: rest) =
        (rest.map fun s => toFinite (jsParseFloat (jsReplaceDollar s.price))).foldl
          min (toFinite (jsParseFloat (jsReplaceDollar s0.price))) := by
      unfold specMinPrice
      simp only [List.map_cons]
    refine ⟨?_, ?_, ?_⟩
    · rw [hcongr]
      unfold jsMinList
      simp only [List.map_cons, List.foldl_cons]
      have h0 : jsMin2 JsNum.posInf
          (JsNum.num (toFinite (jsParseFloat (jsReplaceDollar s0.price)))) =
          JsNum.num (toFinite (jsParseFloat (jsReplaceDollar s0.price))) := rfl
      rw [h0, foldl_jsMin2_num, hmin]
    · rw [hmin]
      rcases foldl_min_mem
          (rest.map fun s => toFinite (jsParseFloat (jsReplaceDollar s.price)))
          (toFinite (jsParseFloat (jsReplaceDollar s0.price))) with h | h
      · refine ⟨s0, List.mem_cons_self s0 rest, ?_⟩
        obtain ⟨q, hq⟩ := hfin s0 (List.mem_cons_self s0 rest)
        rw [hq] at h ⊢
        rw [toFinite_num] at h ⊢
        rw [h]
      · obtain ⟨s, hs, hval⟩ := List.mem_map.mp h
        refine ⟨s, List.mem_cons_of_mem s0 hs, ?_⟩
        obtain ⟨q, hq⟩ := hfin s (List.mem_cons_of_mem s0 hs)
        rw [hq] at hval ⊢
        rw [toFinite_num] at hval
        rw [hval]
    · intro s hs r hr
      rw [hmin]
      obtain ⟨h1, h2⟩ := foldl_min_le
        (rest.map fun t => toFinite (jsParseFloat (jsReplaceDollar t.price)))
        (toFinite (jsParseFloat (jsReplaceDollar s0.price)))
      rcases List.mem_cons.mp hs with rfl | hs2
      · have hev : toFinite (jsParseFloat (jsReplaceDollar s.price)) = r := by
          rw [hr]
          rfl
        exact hev ▸ h1
      · have hmem : toFinite (jsParseFloat (jsReplaceDollar s.price)) ∈
            rest.map fun t => toFinite (jsParseFloat (jsReplaceDollar t.price)) :=
          List.mem_map_of_mem _ hs2
        have hev : toFinite (jsParseFloat (jsReplaceDollar s.price)) = r := by
          rw [hr]
          rfl
        exact hev ▸ h2 _ hmem

/-- C1: for a part with at least one store whose prices all parse to finite
numbers, `getBestPrice` returns `'$'` followed by the two-decimal rendering
of the minimum of the parsed store prices (`specMinPrice`, which is itself
one of the parsed prices and a lower bound for all of them). -/
theorem bestPrice_is_min_formatted (stores : List Store) (hne : stores ≠ [])
    (hfin : ∀ s ∈ stores, ∃ q : ℚ,
      jsParseFloat (jsReplaceDollar s.price) = JsNum.num q) :
    (∃ s ∈ stores,
      jsParseFloat (jsReplaceDollar s.price) = JsNum.num (specMinPrice stores)) ∧
    (∀ s ∈ stores, ∀ r : ℚ,
      jsParseFloat (jsReplaceDollar s.price) = JsNum.num r →
        specMinPrice stores ≤ r) ∧
    getBestPrice stores = "$" ++ jsToFixed2 (JsNum.num (specMinPrice stores)) := by
  obtain ⟨h1, h2, h3⟩ := jsMinList_finite stores hne hfin
  refine ⟨h2, h3, ?_⟩
  show "$" ++ jsToFixed2 (jsMinList (stores.map fun store =>
    jsParseFloat (jsReplaceDollar store.price))) = _
  rw [h1]

theorem parse_449 :
    jsParseFloat (jsReplaceDollar "$449.99") = JsNum.num (44999 / 100) := by
  simp [jsParseFloat, jsReplaceDollar, parseFloatChars, parseAfterSign,
    parsedMag, parseFrac, skipWs, parseSign, stripInfinity, takeDigits,
    digitsVal, charVal, parseExp, expFactor, replaceFirstDollar, isJsWs]
  norm_num

theorem parse_459 :
    jsParseFloat (jsReplaceDollar "$459.99") = JsNum.num (45999 / 100) := by
  simp [jsParseFloat, jsReplaceDollar, parseFloatChars, parseAfterSign,
    parsedMag, parseFrac, skipWs, parseSign, stripInfinity, takeDigits,
    digitsVal, charVal, parseExp, expFactor, replaceFirstDollar, isJsWs]
  norm_num

theorem examplePart_prices_finite :
    ∀ s ∈ examplePart.stores, ∃ q : ℚ,
      jsParseFloat (jsReplaceDollar s.price) = JsNum.num q := by
  intro s hs
  rcases List.mem_cons.mp hs with rfl | hs2
  · exact ⟨44999 / 100, parse_449⟩
  · rcases List.mem_cons.mp hs2 with rfl | hs3
    · exact ⟨45999 / 100, parse_459⟩
    · cases hs3

/-- Witness for C1 at the specification's two-store example part. -/
theorem bestPrice_is_min_formatted_witness :
    (∃ s ∈ examplePart.stores, jsParseFloat (jsReplaceDollar s.price) =
      JsNum.num (specMinPrice examplePart.stores)) ∧
    (∀ s ∈ examplePart.stores, ∀ r : ℚ,
      jsParseFloat (jsReplaceDollar s.price) = JsNum.num r →
        specMinPrice examplePart.stores ≤ r) ∧
    getBestPrice examplePart.stores =
      "$" ++ jsToFixed2 (JsNum.num (specMinPrice examplePart.stores)) :=
  bestPrice_is_min_formatted examplePart.stores (by
    simp [examplePart]) examplePart_prices_finite

end Tracker

namespace Tracker

theorem strip_dollar_append (t : String) : jsReplaceDollar ("$" ++ t) = t := by
  cases t
  rfl

theorem bestNum_eq_round2 (p : Part) (hne : p.stores ≠ [])
    (hfin : ∀ s ∈ p.stores, ∃ q : ℚ,
      jsParseFloat (jsReplaceDollar s.price) = JsNum.num q) :
    bestNum p = JsNum.num (round2 (specMinPrice p.stores)) := by
  obtain ⟨h1, -, -⟩ := jsMinList_finite p.stores hne hfin
  have hbp : getBestPrice p.stores =
      "$" ++ jsToFixed2 (JsNum.num (specMinPrice p.stores)) := by
    show "$" ++ jsToFixed2 (jsMinList (p.stores.map fun store =>
      jsParseFloat (jsReplaceDollar store.price))) = _
    rw [h1]
  unfold bestNum
  rw [hbp, strip_dollar_append, parse_toFixed2]

theorem foldl_jsAdd_num (parts : List Part)
    (hfin : ∀ p ∈ parts, bestNum p = JsNum.num (round2 (specMinPrice p.stores))) :
    ∀ a : ℚ, parts.foldl (fun t p => jsAdd t (bestNum p)) (JsNum.num a) =
      JsNum.num (a + (parts.map fun p => round2 (specMinPrice p.stores)).sum) := by
  induction parts with
  | nil =>
    intro a
    simp
  | cons p ps ih =>
    intro a
    simp only [List.foldl_cons]
    rw [hfin p (List.mem_cons_self p ps)]
    have hstep : jsAdd (JsNum.num a) (JsNum.num (round2 (specMinPrice p.stores))) =
        JsNum.num (a + round2 (specMinPrice p.stores)) := rfl
    rw [hstep, ih fun q hq => hfin q (List.mem_cons_of_mem p hq)]
    rw [List.map_cons, List.sum_cons]
    ring_nf

/-- C9 (amended): with every part holding at least one store and every
price parsing to a finite value, `getTotalBuildCost` is the sum over parts
of the *two-decimal rounding* of the minimum parsed store price (the code
re-parses each part's formatted best-price string). -/
theorem totalCost_eq_sum_rounded_minima (parts : List Part)
    (h : ∀ p ∈ parts, p.stores ≠ [] ∧ ∀ s ∈ p.stores, ∃ q : ℚ,
      jsParseFloat (jsReplaceDollar s.price) = JsNum.num q) :
    getTotalBuildCost parts =
      JsNum.num ((parts.map fun p => round2 (specMinPrice p.stores)).sum) := by
  unfold getTotalBuildCost
  rw [foldl_jsAdd_num parts (fun p hp =>
    bestNum_eq_round2 p (h p hp).1 (h p hp).2) 0]
  rw [zero_add]

/-- Witness for C9 (amended) at the specification's one-part example. -/
theorem totalCost_eq_sum_rounded_minima_witness :
    getTotalBuildCost [examplePart] =
      JsNum.num (([examplePart].map fun p =>
        round2 (specMinPrice p.stores)).sum) :=
  totalCost_eq_sum_rounded_minima [examplePart] (by
    intro p hp
    rcases List.mem_cons.mp hp with rfl | hp2
    · exact ⟨by simp [examplePart], examplePart_prices_finite⟩
    · cases hp2)

theorem parse_1125 :
    jsParseFloat (jsReplaceDollar "$1.125") = JsNum.num (9 / 8) := by
  simp [jsParseFloat, jsReplaceDollar, parseFloatChars, parseAfterSign,
    parsedMag, parseFrac, skipWs, parseSign, stripInfinity, takeDigits,
    digitsVal, charVal, parseExp, expFactor, replaceFirstDollar, isJsWs]
  norm_num

theorem round2_nine_eighths : round2 (9 / 8 : ℚ) = 113 / 100 := by
  unfold round2 fixed2Nat
  rw [if_neg (by norm_num)]
  have h1 : |(9 / 8 : ℚ)| * 100 + 1 / 2 = ((113 : ℤ) : ℚ) := by
    rw [abs_of_pos (by norm_num)]
    norm_num
  rw [h1, Int.floor_intCast]
  norm_num [show Int.toNat 113 = 113 from rfl]

/-- C9 counterexample: for a single part with the single price `$1.125`
(minimum 9/8), the total build cost is the re-parsed two-decimal rendering
113/100, not the sum of the minima 9/8. -/
theorem totalCost_not_sum_of_minima :
    getTotalBuildCost
        [{ id := "b", name := "B", type := "CPU", lastChecked := "d",
           stores := [{ id := "s", name := "S", url := "u", price := "$1.125",
                        inStock := false, priceHistory := [] }] }] ≠
      JsNum.num
        (([({ id := "b", name := "B", type := "CPU", lastChecked := "d",
              stores := [{ id := "s", name := "S", url := "u", price := "$1.125",
                           inStock := false, priceHistory := [] }] } : Part)].map
          fun p => specMinPrice p.stores).sum) := by
  have hmin : specMinPrice
      [({ id := "s", name := "S", url := "u", price := "$1.125",
          inStock := false, priceHistory := [] } : Store)] = 9 / 8 := by
    unfold specMinPrice
    simp only [List.map_cons, List.map_nil]
    rw [parse_1125]
    rfl
  have hbest : bestNum
      ({ id := "b", name := "B", type := "CPU", lastChecked := "d",
         stores := [{ id := "s", name := "S", url := "u", price := "$1.125",
                      inStock := false, priceHistory := [] }] } : Part) =
      JsNum.num (round2 (9 / 8)) := by
    rw [← hmin]
    apply bestNum_eq_round2
    · simp
    · intro s hs
      rcases List.mem_cons.mp hs with rfl | hs2
      · exact ⟨9 / 8, parse_1125⟩
      · cases hs2
  have htot : getTotalBuildCost
      [{ id := "b", name := "B", type := "CPU", lastChecked := "d",
         stores := [{ id := "s", name := "S", url := "u", price := "$1.125",
                      inStock := false, priceHistory := [] }] }] =
      JsNum.num (113 / 100) := by
    unfold getTotalBuildCost
    simp only [List.foldl_cons, List.foldl_nil]
    rw [hbest, round2_nine_eighths]
    show JsNum.num (0 + 113 / 100) = JsNum.num (113 / 100)
    norm_num
  rw [htot]
  simp only [List.map_cons, List.map_nil, List.sum_cons, List.sum_nil]
  rw [hmin]
  intro hcon
  injection hcon with hcon
  norm_num at hcon

end Tracker

namespace Tracker

theorem bestNum_empty_stores (p : Part) (h : p.stores = []) :
    bestNum p = JsNum.posInf := by
  unfold bestNum getBestPrice
  rw [h]
  rfl

theorem foldl_jsAdd_posInf (parts : List Part)
    (hok : ∀ p ∈ parts, bestNum p = JsNum.posInf ∨ ∃ q : ℚ,
      bestNum p = JsNum.num q) :
    ∀ a : JsNum, (a = JsNum.posInf ∨ ∃ q : ℚ, a = JsNum.num q) →
      ((∃ p ∈ parts, bestNum p = JsNum.posInf) ∨ a = JsNum.posInf) →
      parts.foldl (fun t p => jsAdd t (bestNum p)) a = JsNum.posInf := by
  induction parts with
  | nil =>
    intro a ha hex
    rcases hex with ⟨p, hp, -⟩ | rfl
    · cases hp
    · rfl
  | cons p ps ih =>
    intro a ha hex
    simp only [List.foldl_cons]
    rcases hok p (List.mem_cons_self p ps) with hp | ⟨r, hr⟩
    · have ha2 : jsAdd a (bestNum p) = JsNum.posInf := by
        rw [hp]
        rcases ha with rfl | ⟨q, rfl⟩ <;> rfl
      rw [ha2]
      exact ih (fun x hx => hok x (List.mem_cons_of_mem p hx)) _
        (Or.inl rfl) (Or.inr rfl)
    · have ha2 : jsAdd a (bestNum p) = JsNum.posInf ∨
          ∃ q : ℚ, jsAdd a (bestNum p) = JsNum.num q := by
        rw [hr]
        rcases ha with rfl | ⟨q, rfl⟩
        · exact Or.inl rfl
        · exact Or.inr ⟨q + r, rfl⟩
      rcases hex with ⟨x, hx, hxinf⟩ | rfl
      · rcases List.mem_cons.mp hx with rfl | hx2
        · rw [hxinf] at hr
          cases hr
        · exact ih (fun y hy => hok y (List.mem_cons_of_mem p hy)) _ ha2
            (Or.inl ⟨x, hx2, hxinf⟩)
      · have ha3 : jsAdd JsNum.posInf (bestNum p) = JsNum.posInf := by
          rw [hr]
          rfl
        rw [ha3]
        exact ih (fun y hy => hok y (List.mem_cons_of_mem p hy)) _
          (Or.inl rfl) (Or.inr rfl)

/-- C10 (amended): `getBestPrice` of a storeless part is the literal
`"$Infinity"` (the functions are total and never throw), and
`getTotalBuildCost` of a catalog containing a storeless part is `Infinity`
provided every store price in the catalog parses to a finite value (with an
unparseable price elsewhere, `NaN` propagates instead). -/
theorem storeless_part_gives_infinity (parts : List Part)
    (hex : ∃ p ∈ parts, p.stores = [])
    (hfin : ∀ p ∈ parts, ∀ s ∈ p.stores, ∃ q : ℚ,
      jsParseFloat (jsReplaceDollar s.price) = JsNum.num q) :
    getBestPrice [] = "$Infinity" ∧
    getTotalBuildCost parts = JsNum.posInf := by
  refine ⟨rfl, ?_⟩
  unfold getTotalBuildCost
  apply foldl_jsAdd_posInf parts
  · intro p hp
    by_cases hst : p.stores = []
    · exact Or.inl (bestNum_empty_stores p hst)
    · exact Or.inr ⟨round2 (specMinPrice p.stores),
        bestNum_eq_round2 p hst (hfin p hp)⟩
  · exact Or.inr ⟨0, rfl⟩
  · obtain ⟨p, hp, hst⟩ := hex
    exact Or.inl ⟨p, hp, bestNum_empty_stores p hst⟩

/-- Witness for C10 (amended): a storeless part next to the example part. -/
theorem storeless_part_gives_infinity_witness :
    getBestPrice [] = "$Infinity" ∧
    getTotalBuildCost
      [{ id := "e", name := "E", type := "CPU", stores := [],
         lastChecked := "d" }, examplePart] = JsNum.posInf :=
  storeless_part_gives_infinity _
    ⟨{ id := "e", name := "E", type := "CPU", stores := [],
       lastChecked := "d" }, List.mem_cons_self _ _, rfl⟩
    (by
      intro p hp
      rcases List.mem_cons.mp hp with rfl | hp2
      · intro s hs
        cases hs
      · rcases List.mem_cons.mp hp2 with rfl | hp3
        · exact examplePart_prices_finite
        · cases hp3)

/-- C10 counterexample: a catalog holding a storeless part *and* a part
with an unparseable price yields `NaN`, not `Infinity`. -/
theorem storeless_part_total_nan_counterexample :
    (({ id := "e", name := "E", type := "CPU", stores := [],
        lastChecked := "d" } : Part).stores = []) ∧
    getTotalBuildCost
        [{ id := "e", name := "E", type := "CPU", stores := [],
           lastChecked := "d" },
         { id := "b", name := "B", type := "CPU", lastChecked := "d",
           stores := [{ id := "s", name := "S", url := "u", price := "abc",
                        inStock := false, priceHistory := [] }] }] =
      JsNum.nan ∧
    JsNum.nan ≠ JsNum.posInf := by
  refine ⟨rfl, ?_, by decide⟩
  rfl

end Tracker

namespace Tracker

theorem halve_length (l : List Part) :
    (halve l).1.length = (l.length + 1) / 2 ∧
    (halve l).2.length = l.length / 2 := by
  induction l with
  | nil => exact ⟨rfl, rfl⟩
  | cons a rest ih =>
    obtain ⟨h1, h2⟩ := ih
    constructor
    · show (a :: (halve rest).2).length = _
      simp only [List.length_cons, h2]
      omega
    · show (halve rest).1.length = _
      rw [h1]
      simp

theorem mem_jsMergeBy (le : Part → Part → Bool) :
    ∀ (n : Nat) (l r : List Part), l.length + r.length ≤ n →
      ∀ x ∈ jsMergeBy le l r, x ∈ l ∨ x ∈ r := by
  intro n
  induction n with
  | zero =>
    intro l r hlen x hx
    cases l with
    | nil => exact Or.inr (by simpa [jsMergeBy] using hx)
    | cons a l2 => simp at hlen
  | succ n ih =>
    intro l r hlen x hx
    cases l with
    | nil => exact Or.inr (by simpa [jsMergeBy] using hx)
    | cons a l2 =>
      cases r with
      | nil => exact Or.inl (by simpa [jsMergeBy] using hx)
      | cons b r2 =>
        simp only [jsMergeBy] at hx
        by_cases hle : le a b
        · rw [if_pos hle] at hx
          rcases List.mem_cons.mp hx with rfl | hx2
          · exact Or.inl (List.mem_cons_self x l2)
          · rcases ih l2 (b :: r2) (by simp at hlen ⊢; omega) x hx2 with h | h
            · exact Or.inl (List.mem_cons_of_mem a h)
            · exact Or.inr h
        · rw [if_neg hle] at hx
          rcases List.mem_cons.mp hx with rfl | hx2
          · exact Or.inr (List.mem_cons_self x r2)
          · rcases ih (a :: l2) r2 (by simp at hlen ⊢; omega) x hx2 with h | h
            · exact Or.inl h
            · exact Or.inr (List.mem_cons_of_mem b h)

theorem avFirst_nil : AvFirst [] :=
  ⟨[], [], rfl, fun x hx => absurd hx (List.not_mem_nil x),
    fun x hx => absurd hx (List.not_mem_nil x)⟩

theorem avFirst_of_all_false (l : List Part)
    (h : ∀ x ∈ l, getAvailabilityStatus x.stores = false) : AvFirst l :=
  ⟨[], l, rfl, fun x hx => absurd hx (List.not_mem_nil x), h⟩

theorem avFirst_singleton (p : Part) : AvFirst [p] := by
  by_cases hp : getAvailabilityStatus p.stores
  · exact ⟨[p], [], rfl,
      fun x hx => by rcases List.mem_singleton.mp hx with rfl; exact hp,
      fun x hx => absurd hx (List.not_mem_nil x)⟩
  · apply avFirst_of_all_false
    intro x hx
    rcases List.mem_singleton.mp hx with rfl
    simpa using hp

theorem avFirst_tail (a : Part) (l : List Part) (h : AvFirst (a :: l)) :
    AvFirst l := by
  obtain ⟨l₁, l₂, heq, h₁, h₂⟩ := h
  cases l₁ with
  | nil =>
    rw [List.nil_append] at heq
    apply avFirst_of_all_false
    intro x hx
    exact h₂ x (heq ▸ List.mem_cons_of_mem a hx)
  | cons c l₁2 =>
    rw [List.cons_append] at heq
    injection heq with h3 h4
    exact ⟨l₁2, l₂, h4, fun x hx => h₁ x (List.mem_cons_of_mem c hx), h₂⟩

theorem avFirst_all_false (a : Part) (l : List Part) (h : AvFirst (a :: l))
    (ha : getAvailabilityStatus a.stores = false) :
    ∀ x ∈ a :: l, getAvailabilityStatus x.stores = false := by
  obtain ⟨l₁, l₂, heq, h₁, h₂⟩ := h
  cases l₁ with
  | nil =>
    rw [List.nil_append] at heq
    intro x hx
    exact h₂ x (heq ▸ hx)
  | cons c l₁2 =>
    rw [List.cons_append] at heq
    injection heq with h3 h4
    subst h3
    rw [h₁ a (List.mem_cons_self a l₁2)] at ha
    cases ha

theorem avFirst_cons_true (a : Part) (l : List Part)
    (ha : getAvailabilityStatus a.stores = true) (h : AvFirst l) :
    AvFirst (a :: l) := by
  obtain ⟨l₁, l₂, heq, h₁, h₂⟩ := h
  refine ⟨a :: l₁, l₂, by rw [heq, List.cons_append], ?_, h₂⟩
  intro x hx
  rcases List.mem_cons.mp hx with rfl | hx2
  · exact ha
  · exact h₁ x hx2

theorem avFirst_merge :
    ∀ (n : Nat) (L R : List Part), L.length + R.length ≤ n → AvFirst L →
      AvFirst R →
      AvFirst (jsMergeBy (fun a b => !(getAvailabilityStatus b.stores)) L R) := by
  intro n
  induction n with
  | zero =>
    intro L R hlen hL hR
    cases L with
    | nil => simpa [jsMergeBy] using hR
    | cons a l2 => simp at hlen
  | succ n ih =>
    intro L R hlen hL hR
    cases L with
    | nil => simpa [jsMergeBy] using hR
    | cons a l2 =>
      cases R with
      | nil => simpa [jsMergeBy] using hL
      | cons b r2 =>
        simp only [jsMergeBy]
        by_cases hb : getAvailabilityStatus b.stores
        · rw [if_neg (by simp [hb])]
          apply avFirst_cons_true b _ hb
          exact ih (a :: l2) r2 (by simp at hlen ⊢; omega) hL
            (avFirst_tail b r2 hR)
        · rw [if_pos (by simp [hb])]
          by_cases ha : getAvailabilityStatus a.stores
          · apply avFirst_cons_true a _ ha
            exact ih l2 (b :: r2) (by simp at hlen ⊢; omega)
              (avFirst_tail a l2 hL) hR
          · have hLf := avFirst_all_false a l2 hL (by simpa using ha)
            have hRf := avFirst_all_false b r2 hR (by simpa using hb)
            apply avFirst_of_all_false
            intro x hx
            rcases List.mem_cons.mp hx with rfl | hx2
            · exact hLf x (List.mem_cons_self x l2)
            · rcases mem_jsMergeBy _ (l2.length + (b :: r2).length) l2 (b :: r2)
                le_rfl x hx2 with h | h
              · exact hLf x (List.mem_cons_of_mem a h)
              · exact hRf x h

theorem avFirst_sortFuel :
    ∀ (n : Nat) (l : List Part), l.length ≤ n →
      AvFirst (jsSortFuel (fun a b => !(getAvailabilityStatus b.stores)) n l) := by
  intro n
  induction n with
  | zero =>
    intro l hlen
    have hl : l = [] := List.length_eq_zero.mp (Nat.le_zero.mp hlen)
    subst hl
    exact avFirst_nil
  | succ n ih =>
    intro l hlen
    match l with
    | [] => exact avFirst_nil
    | [a] => exact avFirst_singleton a
    | a :: b :: rest =>
      simp only [jsSortFuel]
      obtain ⟨hh1, hh2⟩ := halve_length (a :: b :: rest)
      apply avFirst_merge
        ((jsSortFuel (fun a b => !(getAvailabilityStatus b.stores)) n
            (halve (a :: b :: rest)).1).length +
          (jsSortFuel (fun a b => !(getAvailabilityStatus b.stores)) n
            (halve (a :: b :: rest)).2).length) _ _ le_rfl
      · apply ih
        rw [hh1]
        simp only [List.length_cons] at hlen ⊢
        omega
      · apply ih
        rw [hh2]
        simp only [List.length_cons] at hlen ⊢
        omega

/-- C7: sorting by availability puts every part with an in-stock store
before every part with no in-stock store: the sorted output splits into an
all-available prefix followed by an all-unavailable suffix. -/
theorem availability_sort_partitions (selectedType : String)
    (parts : List Part) :
    ∃ l₁ l₂, filteredAndSortedParts selectedType SortKey.availability parts =
        l₁ ++ l₂ ∧
      (∀ p ∈ l₁, getAvailabilityStatus p.stores = true) ∧
      (∀ p ∈ l₂, getAvailabilityStatus p.stores = false) := by
  have hle : (fun a b : Part => cmpLe (partCompare SortKey.availability a b)) =
      fun a b : Part => !(getAvailabilityStatus b.stores) := by
    funext a b
    unfold partCompare cmpLe
    by_cases hb : getAvailabilityStatus b.stores
    · rw [if_pos hb, hb]
      norm_num
    · rw [if_neg hb]
      rw [Bool.not_eq_true] at hb
      rw [hb]
      norm_num
  show AvFirst (filteredAndSortedParts selectedType SortKey.availability parts)
  unfold filteredAndSortedParts jsSortBy
  rw [hle]
  exact avFirst_sortFuel _ _ le_rfl

end Tracker
